import Mathlib

/-!
Shallow embedding of the membership-roster ingestion pipeline
(`membershipship.go`): Go `time.Parse` restricted to the six date layouts
used by `parseDate`, `strings.TrimSpace`, the row-normalization loop of
`readCSVFromUrl`, and the configuration check of `fetchMemberData`.
-/

/-- A calendar date, modelling the date component of Go `time.Time`
(the pipeline never inspects the time-of-day component). -/
structure Date where
  year : Nat
  month : Nat
  day : Nat
deriving DecidableEq, Repr

/-- Go `isLeap` (src/time/time.go): year divisible by 4 and not by 100,
or divisible by 400. -/
def isLeapYear (y : Nat) : Bool :=
  (y % 4 == 0 && y % 100 != 0) || y % 400 == 0

/-- Go `daysIn(m Month, year int)`: number of days of month `m` in `year`. -/
def daysIn (m y : Nat) : Nat :=
  if m = 2 then (if isLeapYear y then 29 else 28)
  else if m = 4 ∨ m = 6 ∨ m = 9 ∨ m = 11 then 30
  else 31

/-- The range check Go `time.Parse` applies to the extracted components:
month in 1..12 and day in 1..daysIn(month, year). -/
def validDate (d : Date) : Prop :=
  1 ≤ d.month ∧ d.month ≤ 12 ∧ 1 ≤ d.day ∧ d.day ≤ daysIn d.month d.year

instance (d : Date) : Decidable (validDate d) := by
  unfold validDate; exact inferInstance

/-- Numeric value of a decimal digit character. -/
def digitToNat (c : Char) : Nat := c.toNat - '0'.toNat

/-- Go `getnum` (src/time/format.go): reads a one- or two-digit number.
With `fixed = true` (zero-padded layout element such as `02`) exactly two
digits are required; with `fixed = false` a second digit is consumed when
present. -/
def getnum (fixed : Bool) : List Char → Option (Nat × List Char)
  | [] => none
  | c :: rest =>
    if c.isDigit then
      match rest with
      | c2 :: rest2 =>
        if c2.isDigit then some (digitToNat c * 10 + digitToNat c2, rest2)
        else if fixed then none else some (digitToNat c, rest)
      | [] => if fixed then none else some (digitToNat c, [])
    else none

/-- Go parsing of the four-digit year layout element `2006`: exactly four
decimal digits. -/
def getnum4 : List Char → Option (Nat × List Char)
  | c1 :: c2 :: c3 :: c4 :: rest =>
    if c1.isDigit && c2.isDigit && c3.isDigit && c4.isDigit then
      some (digitToNat c1 * 1000 + digitToNat c2 * 100 +
            digitToNat c3 * 10 + digitToNat c4, rest)
    else none
  | _ => none

/-- Consumes the literal `/` separator of the layouts. -/
def expectSlash : List Char → Option (List Char)
  | '/' :: rest => some rest
  | _ => none

/-- Extracts `first/second/year` from the input, where `first` and `second`
are one- or two-digit numbers (zero-padded when the corresponding flag is
set) and the whole input must be consumed, as in Go `time.Parse`. -/
def parse2 (firstFixed secondFixed : Bool) (s : List Char) :
    Option (Nat × Nat × Nat) :=
  (getnum firstFixed s).bind fun a =>
    (expectSlash a.2).bind fun s1 =>
      (getnum secondFixed s1).bind fun b =>
        (expectSlash b.2).bind fun s2 =>
          (getnum4 s2).bind fun y =>
            if y.2 = [] then some (a.1, b.1, y.1) else none

/-- The range check at the end of Go `time.Parse`. -/
def mkDate (y m d : Nat) : Option Date :=
  if validDate ⟨y, m, d⟩ then some ⟨y, m, d⟩ else none

/-- One of the layout strings of `parseDate`: day/month/year with the
given zero-padding flags, month/day/year likewise, or a bare four-digit
year (which Go parses with month and day defaulting to January 1). -/
inductive Layout
  | dmy (dayFixed monthFixed : Bool)
  | mdy (monthFixed dayFixed : Bool)
  | yyyy
deriving DecidableEq, Repr

/-- Go `time.Parse(layout, value)` for the layouts of `parseDate`. -/
def tryLayout : Layout → List Char → Option Date
  | .dmy df mf, s => (parse2 df mf s).bind fun t => mkDate t.2.2 t.2.1 t.1
  | .mdy mf df, s => (parse2 mf df s).bind fun t => mkDate t.2.2 t.1 t.2.1
  | .yyyy, s =>
    (getnum4 s).bind fun t => if t.2 = [] then mkDate t.1 1 1 else none

/-- The ordered layout list of `parseDate` (src/membershipship.go lines
38-45): `02/01/2006`, `2/1/2006`, `1/2/2006`, `02/1/2006`, `2/01/2006`,
`2006`. -/
def layouts : List Layout :=
  [.dmy true true, .dmy false false, .mdy false false,
   .dmy true false, .dmy false true, .yyyy]

/-- The `for _, layout := range layouts` loop of `parseDate`: first
successful parse wins. -/
def firstParse : List Layout → List Char → Option Date
  | [], _ => none
  | l :: ls, s =>
    match tryLayout l s with
    | some d => some d
    | none => firstParse ls s

/-- Go `unicode.IsSpace` on the Latin-1 range (the whitespace characters
`strings.TrimSpace` strips): tab, newline, vertical tab, form feed,
carriage return, space, next line, no-break space. -/
def isGoSpace (c : Char) : Bool :=
  c == '\t' || c == '\n' || c == '\x0B' || c == '\x0C' ||
  c == '\r' || c == ' ' || c == '\x85' || c == '\xA0'

/-- Go `strings.TrimSpace` on a character list: drop leading and trailing
whitespace. -/
def goTrimList (s : List Char) : List Char :=
  ((s.dropWhile isGoSpace).reverse.dropWhile isGoSpace).reverse

/-- Go `strings.TrimSpace`. -/
def goTrim (s : String) : String := ⟨goTrimList s.data⟩

/-- `parseDate` (src/membershipship.go lines 37-56): trim the input, then
try the layouts in order; `none` models the `unable to parse date` error. -/
def parseDate (dateStr : String) : Option Date :=
  firstParse layouts (goTrimList dateStr.data)

/-- Go `Date` normalization of a day overflow (src/time/time.go): while the
day exceeds the length of the current month, roll into the next month.
Fuel-bounded; 60 steps cover every date this pipeline constructs. -/
def normalizeDate (fuel : Nat) (y m d : Nat) : Date :=
  match fuel with
  | 0 => ⟨y, m, d⟩
  | fuel + 1 =>
    if d ≤ daysIn m y then ⟨y, m, d⟩
    else if 12 ≤ m then normalizeDate fuel (y + 1) 1 (d - daysIn m y)
    else normalizeDate fuel y (m + 1) (d - daysIn m y)

/-- Go `joinDate.AddDate(1, 0, 0)` (src/membershipship.go line 86):
same month and day with the year incremented, normalized when that day
does not exist in the target year (Feb 29 becomes Mar 1). -/
def addDate1y (jd : Date) : Date :=
  normalizeDate 60 (jd.year + 1) jd.month jd.day

/-- The `Member` struct (src/membershipship.go lines 14-20). -/
structure Member where
  FirstName : String
  LastName : String
  Email : String
  JoinDate : Date
  ExpirationDate : Date
deriving DecidableEq, Repr

/-- The body of the row loop of `readCSVFromUrl` for a retained row
(src/membershipship.go lines 76-88): parse field 5 as the join date,
falling back to the current processing date `now` on failure, and build
the record from the trimmed fields 1, 2 and 3. -/
def rowToMember (now : Date) (row : List String) : Member :=
  let joinDate :=
    match parseDate (row.getD 5 "") with
    | some d => d
    | none => now
  { FirstName := goTrim (row.getD 1 "")
    LastName := goTrim (row.getD 2 "")
    Email := goTrim (row.getD 3 "")
    JoinDate := joinDate
    ExpirationDate := addDate1y joinDate }

/-- The `for i, row := range data` loop of `readCSVFromUrl`
(src/membershipship.go lines 72-89), started at loop index `i`: skip the
header row (index 0) and any row with fewer than 6 fields, emit a record
for every other row. -/
def membersLoop (now : Date) (i : Nat) : List (List String) → List Member
  | [] => []
  | row :: rest =>
    if i = 0 ∨ row.length < 6 then membersLoop now (i + 1) rest
    else rowToMember now row :: membersLoop now (i + 1) rest

/-- The complete row-normalization pass of `readCSVFromUrl` over the
decoded rows. -/
def membersOfData (now : Date) (data : List (List String)) : List Member :=
  membersLoop now 0 data

/-- The outcome of Go `http.Get`: Go returns a response for every HTTP
status code and an error only when the transport itself fails, so the
status code is part of the success value. -/
structure HttpResponse where
  StatusCode : Nat
  Body : String
deriving DecidableEq, Repr

/-- The errors the pipeline can return: `http.Get` failure, `csv.ReadAll`
failure, or the missing `CSV_URL` configuration of `fetchMemberData`. -/
inductive PipelineError
  | transportError
  | malformedTable
  | csvUrlNotSet
deriving DecidableEq, Repr

/-- `readCSVFromUrl` (src/membershipship.go lines 58-91). The network and
the CSV decoder are external collaborators, passed as the outcome of
`http.Get` (`none` = transport error) and the `csv.Reader.ReadAll`
function (`none` = undecodable payload); `now` is the current processing
date used as the parse fallback. Exactly as in the source, the response
status code is never inspected: the body is decoded whenever `http.Get`
itself succeeded. -/
def readCSVFromUrl (httpGet : Option HttpResponse)
    (readAll : String → Option (List (List String))) (now : Date) :
    Except PipelineError (List Member) :=
  match httpGet with
  | none => .error .transportError
  | some resp =>
    match readAll resp.Body with
    | none => .error .malformedTable
    | some data => .ok (membersOfData now data)

/-- `fetchMemberData` (src/membershipship.go lines 105-111). The `CSV_URL`
environment variable is the `csvUrl` argument (Go `os.Getenv` returns the
empty string when the variable is unset); the fetch collaborator is a
function from the URL, consulted only when the URL is nonempty. -/
def fetchMemberData (csvUrl : String) (httpGet : String → Option HttpResponse)
    (readAll : String → Option (List (List String))) (now : Date) :
    Except PipelineError (List Member) :=
  if csvUrl = "" then .error .csvUrlNotSet
  else readCSVFromUrl (httpGet csvUrl) readAll now

/-- Equation lemma for one normalization step. -/
lemma normalizeDate_succ (fuel y m d : Nat) :
    normalizeDate (fuel + 1) y m d =
      if d ≤ daysIn m y then (⟨y, m, d⟩ : Date)
      else if 12 ≤ m then normalizeDate fuel (y + 1) 1 (d - daysIn m y)
      else normalizeDate fuel y (m + 1) (d - daysIn m y) := rfl

lemma normalizeDate_done {fuel y m d : Nat} (h : d ≤ daysIn m y) :
    normalizeDate (fuel + 1) y m d = ⟨y, m, d⟩ := by
  rw [normalizeDate_succ, if_pos h]

lemma normalizeDate_step {fuel y m d : Nat} (h : ¬ d ≤ daysIn m y)
    (h12 : ¬ 12 ≤ m) :
    normalizeDate (fuel + 1) y m d = normalizeDate fuel y (m + 1) (d - daysIn m y) := by
  rw [normalizeDate_succ, if_neg h, if_neg h12]

lemma mkDate_valid {y m d : Nat} {dt : Date} (h : mkDate y m d = some dt) :
    validDate dt := by
  unfold mkDate at h
  split at h
  · cases h; assumption
  · cases h

lemma tryLayout_valid {l : Layout} {s : List Char} {dt : Date}
    (h : tryLayout l s = some dt) : validDate dt := by
  cases l <;> simp only [tryLayout, Option.bind_eq_some] at h
  · obtain ⟨t, -, h⟩ := h
    exact mkDate_valid h
  · obtain ⟨t, -, h⟩ := h
    exact mkDate_valid h
  · obtain ⟨t, -, h⟩ := h
    split at h
    · exact mkDate_valid h
    · cases h

lemma firstParse_valid {ls : List Layout} {s : List Char} {dt : Date}
    (h : firstParse ls s = some dt) : validDate dt := by
  induction ls with
  | nil => cases h
  | cons l ls ih =>
    rcases heq : tryLayout l s with _ | d
    · rw [firstParse, heq] at h
      exact ih h
    · rw [firstParse, heq] at h
      cases h
      exact tryLayout_valid heq

lemma parseDate_valid {s : String} {dt : Date} (h : parseDate s = some dt) :
    validDate dt :=
  firstParse_valid h

lemma mem_membersLoop {now : Date} {m : Member} :
    ∀ {rows : List (List String)} {i : Nat}, m ∈ membersLoop now i rows →
      ∃ row, row ∈ rows ∧ m = rowToMember now row := by
  intro rows
  induction rows with
  | nil =>
    intro i h
    simp [membersLoop] at h
  | cons row rest ih =>
    intro i h
    rw [membersLoop] at h
    split at h
    · obtain ⟨r, hr, he⟩ := ih h
      exact ⟨r, List.mem_cons_of_mem _ hr, he⟩
    · rcases List.mem_cons.mp h with he | hmem
      · exact ⟨row, List.mem_cons_self _ _, he⟩
      · obtain ⟨r, hr, he⟩ := ih hmem
        exact ⟨r, List.mem_cons_of_mem _ hr, he⟩

lemma rowToMember_mem_membersLoop {now : Date} :
    ∀ (rows : List (List String)) (j i : Nat) (row : List String),
      rows.get? i = some row → j + i ≠ 0 → 6 ≤ row.length →
      rowToMember now row ∈ membersLoop now j rows := by
  intro rows
  induction rows with
  | nil =>
    intro j i row hget
    cases hget
  | cons r rest ih =>
    intro j i row hget hji hlen
    cases i with
    | zero =>
      cases hget
      rw [membersLoop, if_neg (by omega)]
      exact List.mem_cons_self _ _
    | succ i' =>
      rw [membersLoop]
      split
      · exact ih (j + 1) i' row hget (by omega) hlen
      · exact List.mem_cons_of_mem _ (ih (j + 1) i' row hget (by omega) hlen)

lemma getD_eq_get : ∀ (l : List String) (n : Nat) (h : n < l.length),
    l.getD n "" = l.get ⟨n, h⟩
  | _ :: _, 0, _ => rfl
  | _ :: l, n + 1, h => getD_eq_get l n (Nat.lt_of_succ_lt_succ h)

lemma rowToMember_joinDate {now : Date} {row : List String} :
    (rowToMember now row).JoinDate =
      match parseDate (row.getD 5 "") with
      | some d => d
      | none => now := rfl

lemma rowToMember_joinDate_valid {now : Date} {row : List String}
    (hnow : validDate now) : validDate (rowToMember now row).JoinDate := by
  rw [rowToMember_joinDate]
  rcases heq : parseDate (row.getD 5 "") with _ | d
  · exact hnow
  · exact parseDate_valid heq

lemma isLeapYear_four_dvd {y : Nat} (h : isLeapYear y = true) : y % 4 = 0 := by
  unfold isLeapYear at h
  simp only [Bool.or_eq_true, Bool.and_eq_true, beq_iff_eq, bne_iff_ne] at h
  rcases h with ⟨h4, -⟩ | h400
  · exact h4
  · omega

lemma isLeapYear_succ_of_leap {y : Nat} (h : isLeapYear y = true) :
    isLeapYear (y + 1) = false := by
  have h4 := isLeapYear_four_dvd h
  rw [Bool.eq_false_iff]
  simp only [ne_eq, isLeapYear, Bool.or_eq_true, Bool.and_eq_true, beq_iff_eq,
    bne_iff_ne]
  omega

lemma daysIn_year_irrel {m : Nat} (h : m ≠ 2) (y y' : Nat) :
    daysIn m y = daysIn m y' := by
  unfold daysIn
  rw [if_neg h, if_neg h]

lemma daysIn_two (y : Nat) :
    daysIn 2 y = if isLeapYear y then 29 else 28 := rfl

lemma addDate1y_of_fits {jd : Date} (h : jd.day ≤ daysIn jd.month (jd.year + 1)) :
    addDate1y jd = ⟨jd.year + 1, jd.month, jd.day⟩ := by
  show normalizeDate (59 + 1) (jd.year + 1) jd.month jd.day = _
  exact normalizeDate_done h

lemma addDate1y_same_month_day {jd : Date} (hv : validDate jd)
    (h29 : ¬(jd.month = 2 ∧ jd.day = 29)) :
    addDate1y jd = ⟨jd.year + 1, jd.month, jd.day⟩ := by
  obtain ⟨h1, h2, h3, h4⟩ := hv
  apply addDate1y_of_fits
  by_cases hm : jd.month = 2
  · have hd : jd.day ≠ 29 := fun hd => h29 ⟨hm, hd⟩
    rw [hm] at h4 ⊢
    rw [daysIn_two] at h4 ⊢
    split at h4 <;> split <;> omega
  · rw [daysIn_year_irrel hm (jd.year + 1) jd.year]
    exact h4

lemma addDate1y_feb29 {jd : Date} (hv : validDate jd) (hm : jd.month = 2)
    (hd : jd.day = 29) : addDate1y jd = ⟨jd.year + 1, 3, 1⟩ := by
  obtain ⟨h1, h2, h3, h4⟩ := hv
  have hleap : isLeapYear jd.year = true := by
    rw [hm] at h4
    rw [daysIn_two] at h4
    split at h4
    · assumption
    · omega
  have hnext := isLeapYear_succ_of_leap hleap
  have h28 : daysIn 2 (jd.year + 1) = 28 := by rw [daysIn_two, hnext]; rfl
  have hstep := @normalizeDate_step 59 (jd.year + 1) 2 29
    (by omega) (by omega)
  show normalizeDate (59 + 1) (jd.year + 1) jd.month jd.day = _
  rw [hm, hd, hstep, h28]
  show normalizeDate (58 + 1) (jd.year + 1) 3 1 = _
  exact normalizeDate_done (by have h31 : daysIn 3 (jd.year + 1) = 31 := rfl; omega)

/-- C3: `parseDate` tries the ordered layout list `DD/MM/YYYY`, `D/M/YYYY`,
`M/D/YYYY`, `DD/M/YYYY`, `D/MM/YYYY`, `YYYY` on the trimmed input and the
first successful match wins; the ambiguous string "03/04/2020" therefore
parses day-first to April 3rd 2020 (day 3, month 4), even though the
month-first layout would read it as March 4th. -/
theorem parseDate_day_first :
    layouts = [.dmy true true, .dmy false false, .mdy false false,
               .dmy true false, .dmy false true, .yyyy] ∧
    (∀ (s : String) (d : Date),
      tryLayout (Layout.dmy true true) (goTrimList s.data) = some d →
      parseDate s = some d) ∧
    parseDate "03/04/2020" = some ⟨2020, 4, 3⟩ ∧
    tryLayout (Layout.mdy false false) "03/04/2020".data = some ⟨2020, 3, 4⟩ := by
  refine ⟨rfl, ?_, by decide, by decide⟩
  intro s d h
  simp only [parseDate, layouts, firstParse, h]

theorem parseDate_day_first_witness :
    parseDate "03/04/2020" = some ⟨2020, 4, 3⟩ :=
  parseDate_day_first.2.1 "03/04/2020" ⟨2020, 4, 3⟩ (by decide)

/-- C5: the header row (index 0) never produces a record whatever its field
count, and a row with fewer than 6 fields never produces a record at any
loop index; both are skipped silently (normalization is a total function,
so no error can be raised for the run). -/
theorem skip_header_and_short_rows (now : Date) (row : List String)
    (rest : List (List String)) (i : Nat) :
    membersOfData now (row :: rest) = membersLoop now 1 rest ∧
    (row.length < 6 →
      membersLoop now i (row :: rest) = membersLoop now (i + 1) rest) := by
  constructor
  · rw [membersOfData, membersLoop, if_pos (Or.inl rfl)]
  · intro h
    rw [membersLoop, if_pos (Or.inr h)]

theorem skip_header_and_short_rows_witness :
    membersLoop ⟨2024, 1, 1⟩ 1 [["x", "Bo", "Kim", "bo@x.com"]] =
      membersLoop ⟨2024, 1, 1⟩ 2 [] :=
  (skip_header_and_short_rows ⟨2024, 1, 1⟩ ["x", "Bo", "Kim", "bo@x.com"] [] 1).2
    (by decide)

/-- C6: a retained row maps field index 1 to FirstName, 2 to LastName, 3 to
Email and 5 to the raw join-date string; the three string fields are
trimmed of surrounding whitespace, and the date string is trimmed before
it is matched against the layout list. -/
theorem field_mapping_and_trim (now : Date) (row : List String)
    (h : 6 ≤ row.length) :
    (rowToMember now row).FirstName = goTrim (row.get ⟨1, by omega⟩) ∧
    (rowToMember now row).LastName = goTrim (row.get ⟨2, by omega⟩) ∧
    (rowToMember now row).Email = goTrim (row.get ⟨3, by omega⟩) ∧
    (rowToMember now row).JoinDate =
      (match firstParse layouts (goTrimList (row.get ⟨5, by omega⟩).data) with
       | some d => d
       | none => now) := by
  refine ⟨?_, ?_, ?_, ?_⟩ <;> rw [← getD_eq_get row _ (by omega)] <;> rfl

theorem field_mapping_and_trim_witness :
    (rowToMember ⟨2024, 1, 1⟩
      ["x", " Ann ", "Lee", " ann@x.com", "y", " 15/03/2023 "]).FirstName =
      "Ann" := by
  have h := field_mapping_and_trim ⟨2024, 1, 1⟩
    ["x", " Ann ", "Lee", " ann@x.com", "y", " 15/03/2023 "] (by decide)
  rw [h.1]
  decide

/-- C7: on the three-row sample input the normalizer emits exactly one
record, the one for Ann Lee with join date 2023-03-15 and expiration
2024-03-15; the header row and the 4-field row are skipped, whatever the
processing date. -/
theorem end_to_end_sample (now : Date) :
    membersOfData now
      [["H1", "H2", "H3", "H4", "H5", "H6"],
       ["x", "Ann", "Lee", "ann@x.com", "y", "15/03/2023"],
       ["x", "Bo", "Kim", "bo@x.com"]] =
      [⟨"Ann", "Lee", "ann@x.com", ⟨2023, 3, 15⟩, ⟨2024, 3, 15⟩⟩] := rfl

/-- C9: when the CSV_URL configuration value is empty (Go `os.Getenv`
returns the empty string when the variable is unset), `fetchMemberData`
fails immediately; the outcome is the same for every fetch and decode
collaborator, so no network fetch is consulted and no records are
produced. -/
theorem fetchMemberData_requires_url (httpGet : String → Option HttpResponse)
    (readAll : String → Option (List (List String))) (now : Date) :
    fetchMemberData "" httpGet readAll now =
      .error PipelineError.csvUrlNotSet := rfl

/-- C10: the record emitted for a retained row depends only on the fields
at indices 1, 2, 3 and 5: two rows with at least 6 fields that agree on
those four fields produce identical records, whatever their fields at
indices 0 and 4 and whatever extra fields they carry beyond index 5. -/
theorem record_depends_only_on_mapped_fields (now : Date) (r1 r2 : List String)
    (hl1 : 6 ≤ r1.length) (hl2 : 6 ≤ r2.length)
    (e1 : r1.getD 1 "" = r2.getD 1 "") (e2 : r1.getD 2 "" = r2.getD 2 "")
    (e3 : r1.getD 3 "" = r2.getD 3 "") (e5 : r1.getD 5 "" = r2.getD 5 "") :
    rowToMember now r1 = rowToMember now r2 := by
  simp only [rowToMember, e1, e2, e3, e5]

theorem record_depends_only_on_mapped_fields_witness :
    rowToMember ⟨2024, 1, 1⟩
      ["a", "Ann", "Lee", "ann@x.com", "p", "15/03/2023"] =
    rowToMember ⟨2024, 1, 1⟩
      ["b", "Ann", "Lee", "ann@x.com", "q", "15/03/2023", "extra"] :=
  record_depends_only_on_mapped_fields ⟨2024, 1, 1⟩ _ _ (by decide) (by decide)
    rfl rfl rfl rfl

/-- C1 counterexample: a fetch returning HTTP status 404 does not fail the
pipeline — the body is decoded and a record is emitted — refuting the
claim that a non-success status yields a transport error and no records. -/
theorem non_success_status_not_fatal :
    ¬ ∀ (resp : HttpResponse)
        (readAll : String → Option (List (List String))) (now : Date),
        resp.StatusCode < 200 ∨ 299 < resp.StatusCode →
        readCSVFromUrl (some resp) readAll now =
          .error PipelineError.transportError := by
  intro h
  have hc := h ⟨404, "<html>Not Found</html>"⟩
    (fun _ => some [["h1", "h2", "h3", "h4", "h5", "h6"],
                    ["x", "Ann", "Lee", "ann@x.com", "y", "15/03/2023"]])
    ⟨2024, 1, 1⟩ (by decide)
  have hok : readCSVFromUrl (some ⟨404, "<html>Not Found</html>"⟩)
      (fun _ => some [["h1", "h2", "h3", "h4", "h5", "h6"],
                      ["x", "Ann", "Lee", "ann@x.com", "y", "15/03/2023"]])
      ⟨2024, 1, 1⟩ =
      Except.ok [⟨"Ann", "Lee", "ann@x.com", ⟨2023, 3, 15⟩, ⟨2024, 3, 15⟩⟩] := rfl
  rw [hok] at hc
  exact Except.noConfusion hc

/-- C1 amended: the pipeline fails with a transport error exactly when
`http.Get` itself fails (unreachable remote); the HTTP status code is
never inspected, so responses with different status codes and the same
body are processed identically. -/
theorem transport_error_iff_get_failed
    (readAll : String → Option (List (List String))) (now : Date) :
    (∀ (code code2 : Nat) (body : String),
      readCSVFromUrl (some ⟨code, body⟩) readAll now =
        readCSVFromUrl (some ⟨code2, body⟩) readAll now) ∧
    (∀ g, readCSVFromUrl g readAll now = .error PipelineError.transportError ↔
      g = none) := by
  constructor
  · intro code code2 body
    rfl
  · intro g
    constructor
    · intro h
      cases g with
      | none => rfl
      | some resp =>
        rcases hb : readAll resp.Body with _ | data <;>
          simp [readCSVFromUrl, hb] at h
    · intro h
      subst h
      rfl

/-- C2 counterexample: the record built from the row whose join date is
29/02/2020 has expiration date 2021-03-01, not the same-month same-day
2021-02-29 the claim requires; expiration is not always the join date with
only the year incremented. -/
theorem expiration_not_always_same_month_day :
    ¬ ∀ (now : Date) (data : List (List String)) (m : Member),
        m ∈ membersOfData now data →
        m.ExpirationDate =
          ⟨m.JoinDate.year + 1, m.JoinDate.month, m.JoinDate.day⟩ := by
  intro h
  have hc := h ⟨2024, 1, 1⟩
    [["h"], ["x", "Al", "Ba", "al@x.com", "y", "29/02/2020"]]
    (rowToMember ⟨2024, 1, 1⟩ ["x", "Al", "Ba", "al@x.com", "y", "29/02/2020"])
    (by decide)
  exact absurd hc (by decide)

/-- C2 amended: for every emitted record the expiration date is computed
from the join date by Go `AddDate(1, 0, 0)` — never read from the input —
which yields the same month and day with the year incremented, except that
a Feb 29 join date (which has no counterpart in the following year)
normalizes to Mar 1. -/
theorem expiration_one_calendar_year (now : Date) (data : List (List String))
    (m : Member) (hnow : validDate now) (hm : m ∈ membersOfData now data) :
    m.ExpirationDate = addDate1y m.JoinDate ∧
    validDate m.JoinDate ∧
    (¬(m.JoinDate.month = 2 ∧ m.JoinDate.day = 29) →
      m.ExpirationDate =
        ⟨m.JoinDate.year + 1, m.JoinDate.month, m.JoinDate.day⟩) ∧
    ((m.JoinDate.month = 2 ∧ m.JoinDate.day = 29) →
      m.ExpirationDate = ⟨m.JoinDate.year + 1, 3, 1⟩) := by
  obtain ⟨row, -, he⟩ := mem_membersLoop hm
  subst he
  have hv : validDate (rowToMember now row).JoinDate :=
    rowToMember_joinDate_valid hnow
  have hexp : (rowToMember now row).ExpirationDate =
      addDate1y (rowToMember now row).JoinDate := rfl
  refine ⟨hexp, hv, ?_, ?_⟩
  · intro h29
    rw [hexp]
    exact addDate1y_same_month_day hv h29
  · rintro ⟨h2, h29⟩
    rw [hexp]
    exact addDate1y_feb29 hv h2 h29

theorem expiration_one_calendar_year_witness :
    (rowToMember ⟨2024, 1, 1⟩
      ["x", "Ann", "Lee", "ann@x.com", "y", "15/03/2023"]).ExpirationDate =
      ⟨2024, 3, 15⟩ := by
  have h := expiration_one_calendar_year ⟨2024, 1, 1⟩
    [["h"], ["x", "Ann", "Lee", "ann@x.com", "y", "15/03/2023"]]
    (rowToMember ⟨2024, 1, 1⟩ ["x", "Ann", "Lee", "ann@x.com", "y", "15/03/2023"])
    (by decide) (by decide)
  rw [h.2.2.1 (by decide)]
  rfl

/-- C4: a retained row (index at least 1, at least 6 fields) whose field-5
date string matches none of the layouts still yields a record — the run
does not fail — with join date equal to the processing date `now` and
expiration date one year after `now`. -/
theorem unparseable_date_fallback (now : Date) (data : List (List String))
    (i : Nat) (row : List String) (hget : data.get? i = some row)
    (hi : i ≠ 0) (hlen : 6 ≤ row.length)
    (hp : parseDate (row.getD 5 "") = none) :
    rowToMember now row ∈ membersOfData now data ∧
    (rowToMember now row).JoinDate = now ∧
    (rowToMember now row).ExpirationDate = addDate1y now := by
  refine ⟨rowToMember_mem_membersLoop data 0 i row hget (by omega) hlen, ?_, ?_⟩
  · rw [rowToMember_joinDate, hp]
  · have hj : (rowToMember now row).JoinDate = now := by
      rw [rowToMember_joinDate, hp]
    show addDate1y (rowToMember now row).JoinDate = addDate1y now
    rw [hj]

theorem unparseable_date_fallback_witness :
    (rowToMember ⟨2024, 5, 17⟩
      ["x", "Ann", "Lee", "ann@x.com", "y", "not-a-date"]).JoinDate =
      ⟨2024, 5, 17⟩ :=
  (unparseable_date_fallback ⟨2024, 5, 17⟩
    [["h"], ["x", "Ann", "Lee", "ann@x.com", "y", "not-a-date"]] 1
    ["x", "Ann", "Lee", "ann@x.com", "y", "not-a-date"]
    rfl (by decide) (by decide) (by decide)).2.1

/-- C8: only pipeline-wide failures abort the run: a failed `http.Get`
yields a transport error and an undecodable payload a malformed-table
error, each an error with zero records rather than an empty success; when
both steps succeed the pipeline returns the normalized records, and every
retained row — whatever its field contents — contributes its record. -/
theorem pipeline_failure_policy (httpGet : Option HttpResponse)
    (readAll : String → Option (List (List String))) (now : Date) :
    (httpGet = none →
      readCSVFromUrl httpGet readAll now =
        .error PipelineError.transportError) ∧
    (∀ resp, httpGet = some resp → readAll resp.Body = none →
      readCSVFromUrl httpGet readAll now =
        .error PipelineError.malformedTable) ∧
    (∀ resp data, httpGet = some resp → readAll resp.Body = some data →
      readCSVFromUrl httpGet readAll now = .ok (membersOfData now data) ∧
      ∀ i row, data.get? i = some row → i ≠ 0 → 6 ≤ row.length →
        rowToMember now row ∈ membersOfData now data) := by
  refine ⟨?_, ?_, ?_⟩
  · intro h
    subst h
    rfl
  · intro resp h hb
    subst h
    simp [readCSVFromUrl, hb]
  · intro resp data h hb
    subst h
    refine ⟨by simp [readCSVFromUrl, hb], ?_⟩
    intro i row hget hi hlen
    exact rowToMember_mem_membersLoop data 0 i row hget (by omega) hlen

theorem pipeline_failure_policy_witness :
    readCSVFromUrl none (fun _ => none) ⟨2024, 1, 1⟩ =
      .error PipelineError.transportError :=
  (pipeline_failure_policy none (fun _ => none) ⟨2024, 1, 1⟩).1 rfl
